import Mathlib

/-! keepass-fuse: the read-only filesystem projection of a decoded KeePass tree

A shallow embedding of `src/main.go`: the five node kinds (`GroupsNode`,
`GroupNode`, `EntriesNode`, `EntryNode`, `ValueNode`) with their `Lookup`,
`Readdir`, `Getattr` and `Read` handlers, and the display name `entryTitle`.

Conventions of the embedding.

* A Go `string` is a sequence of bytes (`GoString`); `==` on strings is equality
  of the byte sequences.
* The database is never mutated after it is loaded, so a pointer into it is
  modelled by the value it points to; a pointer that may be `nil` is an `Option`.
* A handler that returns `(*fs.Inode, syscall.Errno)` returns a pair of an
  optional inode and an errno; a run-time panic of Go is the `error` case of
  `Except`.
* Go `int` and `int64` are 64 bits wide, in twos-complement form (`wrapInt`).
* The `context.Context`, the `fs.FileHandle` and the `*fuse.EntryOut` arguments are
  not read by any handler and are left out; a handler that writes to its
  `*fuse.AttrOut` argument takes the record and returns the record after the call.
-/

namespace KeepassFuse

/-! ## Go values -/

/-- One byte. -/
abbrev Byte := Fin 256

/-- A Go string: a sequence of bytes, not necessarily valid UTF-8. -/
abbrev GoString := List Byte

/-- The bytes of a string literal of the Go source, which is UTF-8 encoded. -/
def goStr (s : String) : GoString :=
  (s.data.flatMap String.utf8EncodeChar).map (fun b => b.val)

/-- The value of a 64-bit integer, in twos-complement form, that receives the
arithmetic result `x`. -/
def wrapInt (x : Int) : Int := (x + 2 ^ 63) % 2 ^ 64 - 2 ^ 63

/-- Run-time panics of the Go program: a slice expression out of range. -/
inductive Panic where
  | sliceBounds
  deriving DecidableEq, Repr

/-- The type `syscall.Errno`. -/
abbrev Errno := Nat

/-- The errno `syscall.Errno(0)`: success. -/
def OK : Errno := 0

/-- The errno `syscall.ENOENT`. -/
def ENOENT : Errno := 2

/-- The file type bits `syscall.S_IFDIR`. -/
def S_IFDIR : Nat := 0o40000

/-- The slice expression `data[lo:hi]` of Go on a byte slice whose capacity is its
length: it panics unless `0 <= lo <= hi <= len(data)`. -/
def sliceBytes (data : List Byte) (lo hi : Int) : Except Panic (List Byte) :=
  if 0 ≤ lo ∧ lo ≤ hi ∧ hi ≤ (data.length : Int) then
    .ok ((data.take hi.toNat).drop lo.toNat)
  else
    .error .sliceBounds

/-! ## The decoded database (types of the gokeepasslib dependency)

The declarations of the dependency are not part of the repository; the types below
keep the fields that `main.go` reads. -/

/-- Modelled from the spec: the type `keepass.V` of the dependency, the value of a
field: its content, an immutable byte sequence once decoded. -/
structure V where
  Content : GoString
  deriving DecidableEq

/-- Modelled from the spec: the type `keepass.ValueData` of the dependency, one
key/value field of an entry: the key is a string label such as "Title". -/
structure ValueData where
  Key : GoString
  Value : V
  deriving DecidableEq

/-- Modelled from the spec: the type `wrappers.TimeWrapper` of the dependency, a
stored timestamp; the instant `Time` is counted from the Unix epoch. -/
structure TimeWrapper where
  Time : Int
  deriving DecidableEq

/-- Modelled from the spec: the type `keepass.TimeData` of the dependency, the
timestamp pair (last access, last modification) of a group or of an entry. -/
structure TimeData where
  LastAccessTime : TimeWrapper
  LastModificationTime : TimeWrapper
  deriving DecidableEq

/-- Modelled from the spec: the type `keepass.UUID` of the dependency, the unique
identifier of an entry; `entryTitle` converts it to `[16]byte`. -/
abbrev UUID := { l : List Byte // l.length = 16 }

/-- Modelled from the spec: the type `keepass.Entry` of the dependency: a unique
identifier, a timestamp pair and the key/value fields in stored order. -/
structure Entry where
  UUID : UUID
  Times : TimeData
  Values : List ValueData
  deriving DecidableEq

/-- Modelled from the spec: the type `keepass.Group` of the dependency: a name, a
timestamp pair, the child groups and the child entries, each in stored order. -/
structure Group where
  Name : GoString
  Times : TimeData
  Groups : List Group
  Entries : List Entry

/-- The loop of `Entry.Get`: the first value whose key is `key`. -/
def Entry.Get.loop (key : GoString) : List ValueData → Option ValueData
  | [] => none
  | v :: rest => if v.Key = key then some v else Entry.Get.loop key rest

/-- Modelled from the spec: the accessor `Entry.Get` of the gokeepasslib dependency,
whose source is not under src/; the field of the entry that has the key, taken as
the first one in stored order, and nothing when the entry has no such field. -/
def Entry.Get (e : Entry) (key : GoString) : Option ValueData :=
  Entry.Get.loop key e.Values

/-- Modelled from the spec: the accessor `Entry.GetContent` of the gokeepasslib
dependency, whose source is not under src/; the value that the entry holds for a
key (its "Title" field value), and the empty string when it has no such field. -/
def Entry.GetContent (e : Entry) (key : GoString) : GoString :=
  match e.Get key with
  | none => []
  | some v => v.Value.Content

/-! ## Display name -/

/-- The function `entryTitle` of `main.go`. -/
def entryTitle (e : Entry) : GoString :=
  let title := e.GetContent (goStr "Title")
  if title.length = 0 then
    let uuidBytes : List Byte := e.UUID.val
    uuidBytes
  else
    title

/-! ## Nodes -/

/-- The type `GroupsNode`: the root (no bound group) or the sub-groups of a group. -/
structure GroupsNode where
  group : Option Group
  groups : List Group

/-- The type `GroupNode`. -/
structure GroupNode where
  group : Group

/-- The type `EntriesNode`. -/
structure EntriesNode where
  group : Option Group
  entries : List Entry

/-- The type `EntryNode`. -/
structure EntryNode where
  entry : Entry

/-- The type `ValueNode`. -/
structure ValueNode where
  entry : Entry
  value : ValueData

/-- The node operations handed to `NewInode`: one case per node type of `main.go`. -/
inductive InodeEmbedder where
  | groups (n : GroupsNode)
  | group (n : GroupNode)
  | entries (n : EntriesNode)
  | entry (n : EntryNode)
  | value (n : ValueNode)

/-- The type `fs.StableAttr`, of which the program sets the mode only. -/
structure StableAttr where
  Mode : Nat
  deriving DecidableEq

/-- The inode returned by `NewInode`: the operations and the attributes it was
created with, as the caller passed them. -/
structure Inode where
  ops : InodeEmbedder
  stableAttr : StableAttr

/-- The call `NewInode(ctx, node, id)`. -/
def NewInode (node : InodeEmbedder) (id : StableAttr) : Inode := ⟨node, id⟩

/-- The type `fuse.DirEntry`, of which the program sets mode and name. -/
structure DirEntry where
  Mode : Nat
  Name : GoString
  deriving DecidableEq

/-! ## GroupsNode -/

/-- The handler `GroupsNode.Readdir`: the loop appends one item per group. -/
def GroupsNode.Readdir (rn : GroupsNode) : List DirEntry × Errno :=
  let dirEntries := rn.groups.foldl
    (fun dirEntries g => dirEntries ++ [{ Mode := S_IFDIR ||| 0o444, Name := g.Name }]) []
  (dirEntries, OK)

/-- The loop of `GroupsNode.Lookup` over the groups still to be scanned. -/
def GroupsNode.Lookup.loop (name : GoString) : List Group → Option Inode × Errno
  | [] => (none, ENOENT)
  | g :: rest =>
    if name = g.Name then
      (some (NewInode (.group { group := g }) { Mode := S_IFDIR ||| 0o444 }), OK)
    else
      GroupsNode.Lookup.loop name rest

/-- The handler `GroupsNode.Lookup`. -/
def GroupsNode.Lookup (rn : GroupsNode) (name : GoString) : Option Inode × Errno :=
  GroupsNode.Lookup.loop name rn.groups

/-! ## GroupNode -/

/-- The handler `GroupNode.Readdir`. -/
def GroupNode.Readdir (_gn : GroupNode) : List DirEntry × Errno :=
  ([{ Mode := S_IFDIR ||| 0o444, Name := goStr "groups" },
    { Mode := S_IFDIR ||| 0o444, Name := goStr "entries" }], OK)

/-- The handler `GroupNode.Lookup`. -/
def GroupNode.Lookup (gn : GroupNode) (name : GoString) : Option Inode × Errno :=
  if name = goStr "groups" then
    (some (NewInode (.groups { group := some gn.group, groups := gn.group.Groups })
      { Mode := S_IFDIR ||| 0o444 }), OK)
  else if name = goStr "entries" then
    (some (NewInode (.entries { group := some gn.group, entries := gn.group.Entries })
      { Mode := S_IFDIR ||| 0o444 }), OK)
  else
    (none, ENOENT)

/-! ## EntriesNode -/

/-- The handler `EntriesNode.Readdir`. -/
def EntriesNode.Readdir (en : EntriesNode) : List DirEntry × Errno :=
  let dirEntries := en.entries.foldl
    (fun dirEntries e => dirEntries ++ [{ Mode := S_IFDIR ||| 0o444, Name := entryTitle e }]) []
  (dirEntries, OK)

/-- The loop of `EntriesNode.Lookup` over the entries still to be scanned. -/
def EntriesNode.Lookup.loop (name : GoString) : List Entry → Option Inode × Errno
  | [] => (none, ENOENT)
  | e :: rest =>
    if name = entryTitle e then
      (some (NewInode (.entry { entry := e }) { Mode := S_IFDIR ||| 0o444 }), OK)
    else
      EntriesNode.Lookup.loop name rest

/-- The handler `EntriesNode.Lookup`. -/
def EntriesNode.Lookup (en : EntriesNode) (name : GoString) : Option Inode × Errno :=
  EntriesNode.Lookup.loop name en.entries

/-! ## EntryNode -/

/-- The handler `EntryNode.Readdir`. -/
def EntryNode.Readdir (en : EntryNode) : List DirEntry × Errno :=
  let dirEntries := en.entry.Values.foldl
    (fun dirEntries vd => dirEntries ++ [{ Mode := S_IFDIR ||| 0o444, Name := vd.Key }]) []
  (dirEntries, OK)

/-- The loop of `EntryNode.Lookup` over the values still to be scanned. -/
def EntryNode.Lookup.loop (entry : Entry) (name : GoString) :
    List ValueData → Option Inode × Errno
  | [] => (none, ENOENT)
  | vd :: rest =>
    if vd.Key = name then
      (some (NewInode (.value { entry := entry, value := vd }) { Mode := 0o444 }), OK)
    else
      EntryNode.Lookup.loop entry name rest

/-- The handler `EntryNode.Lookup`. -/
def EntryNode.Lookup (en : EntryNode) (name : GoString) : Option Inode × Errno :=
  EntryNode.Lookup.loop en.entry name en.entry.Values

/-! ## ValueNode -/

/-- The handler `ValueNode.Read`, for a destination buffer of `destLen` bytes and the
offset `off`: the bytes of `fuse.ReadResultData` and the errno, or the panic of the
slice expression. -/
def ValueNode.Read (vn : ValueNode) (destLen : Nat) (off : Int) :
    Except Panic (List Byte × Errno) :=
  let end0 : Int := wrapInt (off + (destLen : Int))
  let data : List Byte := vn.value.Value.Content
  let end1 : Int := if end0 > (data.length : Int) then (data.length : Int) else end0
  match sliceBytes data off end1 with
  | .ok bytes => .ok (bytes, OK)
  | .error p => .error p

/-! ## Attributes -/

/-- Modelled from the spec: the attribute record `fuse.AttrOut` of the go-fuse
dependency, of which the program sets the size and the three times: access time,
modification time and the third time of `SetTimes`, which the spec calls the
creation time. The times are instants counted from the Unix epoch. -/
structure AttrOut where
  Size : Nat
  Atime : Int
  Mtime : Int
  Ctime : Int
  deriving DecidableEq

/-- Modelled from the spec: the method `SetTimes` of the go-fuse dependency, which
stores each of the three times whose pointer is not `nil` and leaves the others. -/
def AttrOut.SetTimes (out : AttrOut) (access mod chstatus : Option Int) : AttrOut :=
  { out with
    Atime := match access with
      | some t => t
      | none => out.Atime
    Mtime := match mod with
      | some t => t
      | none => out.Mtime
    Ctime := match chstatus with
      | some t => t
      | none => out.Ctime }

/-- The instant `time.Unix(0, 0)`: the epoch. -/
def timeZero : Int := 0

/-- The handler `GroupsNode.Getattr`: the attribute record after the call, and the
errno. -/
def GroupsNode.Getattr (gn : GroupsNode) (out : AttrOut) : AttrOut × Errno :=
  match gn.group with
  | some group =>
    (out.SetTimes (some group.Times.LastAccessTime.Time)
      (some group.Times.LastModificationTime.Time) (some timeZero), OK)
  | none => (out, OK)

/-- The handler `GroupNode.Getattr`. -/
def GroupNode.Getattr (gn : GroupNode) (out : AttrOut) : AttrOut × Errno :=
  (out.SetTimes (some gn.group.Times.LastAccessTime.Time)
    (some gn.group.Times.LastModificationTime.Time) (some timeZero), OK)

/-- The handler `EntriesNode.Getattr`. -/
def EntriesNode.Getattr (en : EntriesNode) (out : AttrOut) : AttrOut × Errno :=
  match en.group with
  | some group =>
    (out.SetTimes (some group.Times.LastAccessTime.Time)
      (some group.Times.LastModificationTime.Time) (some timeZero), OK)
  | none => (out, OK)

/-- The handler `EntryNode.Getattr`. -/
def EntryNode.Getattr (en : EntryNode) (out : AttrOut) : AttrOut × Errno :=
  (out.SetTimes (some en.entry.Times.LastAccessTime.Time)
    (some en.entry.Times.LastModificationTime.Time) (some timeZero), OK)

/-- The handler `ValueNode.Getattr`; the length of a Go string is below `2^63`, so
its conversion to `uint64` keeps the value. -/
def ValueNode.Getattr (vn : ValueNode) (out : AttrOut) : AttrOut × Errno :=
  let out1 := out.SetTimes (some vn.entry.Times.LastAccessTime.Time)
    (some vn.entry.Times.LastModificationTime.Time) (some timeZero)
  ({ out1 with Size := vn.value.Value.Content.length }, OK)

/-! ## The root node and the vocabulary of the statements -/

/-- The root node that `main` mounts: the root groups, with no bound group. -/
def root (groups : List Group) : GroupsNode := { group := none, groups := groups }

/-- The element `x` stands at index `i` of `xs`, satisfies `p`, and no element at a
smaller index does: `x` is the first match of `p` in stored order. -/
def FirstAt {α : Type} (p : α → Prop) (xs : List α) (i : Nat) (x : α) : Prop :=
  xs[i]? = some x ∧ p x ∧ ∀ j y, j < i → xs[j]? = some y → ¬ p y

/-- The reader of sequential chunks: it reads `m` bytes at the offset, stops at the
first empty result and otherwise goes on at the offset advanced by the number of
bytes it got; the bytes read so far, or nothing when a read fails or the `fuel`
(the number of reads allowed) runs out. -/
def readChunks (vn : ValueNode) (m : Nat) : Nat → Int → Option (List Byte)
  | 0, _ => none
  | fuel + 1, off =>
    match vn.Read m off with
    | .error _ => none
    | .ok (bytes, _) =>
      if bytes = [] then some []
      else (readChunks vn m fuel (off + (bytes.length : Int))).map (fun more => bytes ++ more)

/-! ## A sample store -/

/-- A sample identifier. -/
def sampleUUID : UUID := ⟨[1, 2, 3, 4, 5, 6, 7, 8, 9, 10, 11, 12, 13, 14, 15, 16], rfl⟩

/-- A second sample identifier. -/
def otherUUID : UUID := ⟨[16, 15, 14, 13, 12, 11, 10, 9, 8, 7, 6, 5, 4, 3, 2, 1], rfl⟩

/-- Sample time stamps. -/
def sampleTimes : TimeData :=
  { LastAccessTime := ⟨1700000500⟩, LastModificationTime := ⟨1700000000⟩ }

/-- The field Title="Bank". -/
def titleField : ValueData := ⟨goStr "Title", ⟨goStr "Bank"⟩⟩

/-- The field Username="alice". -/
def usernameField : ValueData := ⟨goStr "Username", ⟨goStr "alice"⟩⟩

/-- The field Password="s3cr3t". -/
def passwordField : ValueData := ⟨goStr "Password", ⟨goStr "s3cr3t"⟩⟩

/-- The entry "Bank". -/
def bankEntry : Entry :=
  { UUID := sampleUUID, Times := sampleTimes,
    Values := [titleField, usernameField, passwordField] }

/-- An entry with an empty title and a second key "Password". -/
def untitledEntry : Entry :=
  { UUID := otherUUID, Times := sampleTimes,
    Values := [⟨goStr "Title", ⟨[]⟩⟩, ⟨goStr "Password", ⟨goStr "first"⟩⟩,
      ⟨goStr "Password", ⟨goStr "second"⟩⟩] }

/-- An entry that has the title "Bank" as well. -/
def secondBankEntry : Entry :=
  { UUID := otherUUID, Times := sampleTimes, Values := [titleField] }

/-- The group "Personal" holding the entry "Bank". -/
def personalGroup : Group :=
  { Name := goStr "Personal", Times := sampleTimes, Groups := [], Entries := [bankEntry] }

/-- A second group named "Personal", with no entries. -/
def emptyPersonalGroup : Group :=
  { Name := goStr "Personal", Times := sampleTimes, Groups := [], Entries := [] }

/-- The field node of the password of the entry "Bank". -/
def passwordNode : ValueNode := { entry := bankEntry, value := passwordField }

/-- An entry with no field "Title". -/
def bareEntry : Entry :=
  { UUID := sampleUUID, Times := sampleTimes, Values := [usernameField] }

/-- An attribute record that holds older values. -/
def staleAttr : AttrOut := { Size := 7, Atime := 11, Mtime := 12, Ctime := 13 }

/-! ## Reading a field -/

/-- A value that fits 64 bits is unchanged by the wrap. -/
theorem wrapInt_of_range (x : Int) (h0 : -(2 ^ 63) ≤ x) (h1 : x < 2 ^ 63) : wrapInt x = x := by
  unfold wrapInt
  omega

/-- The read at an offset inside the content, as one slice of the content. -/
theorem Read_inside (vn : ValueNode) (destLen : Nat) (off : Int) (h0 : 0 ≤ off)
    (hle : off ≤ (vn.value.Value.Content.length : Int)) (hov : off + (destLen : Int) < 2 ^ 63) :
    vn.Read destLen off =
      .ok ((vn.value.Value.Content.take
        (min (off.toNat + destLen) vn.value.Value.Content.length)).drop off.toNat, OK) := by
  have hw : wrapInt (off + (destLen : Int)) = off + (destLen : Int) :=
    wrapInt_of_range _ (by omega) hov
  unfold ValueNode.Read sliceBytes
  simp only [hw]
  by_cases hc : off + (destLen : Int) > (vn.value.Value.Content.length : Int)
  · have hm : min (off.toNat + destLen) vn.value.Value.Content.length
        = vn.value.Value.Content.length := by omega
    rw [if_pos hc, if_pos ⟨h0, hle, le_refl _⟩, hm, Int.toNat_ofNat]
  · have hm : min (off.toNat + destLen) vn.value.Value.Content.length
        = (off + (destLen : Int)).toNat := by omega
    rw [if_neg hc, if_pos ⟨h0, by omega, by omega⟩, hm]


/-! ## Scanning a list for the first match -/

/-- The first element of a non-empty list is a first match as soon as it matches. -/
theorem FirstAt_head {α : Type} (p : α → Prop) (x : α) (xs : List α) (hx : p x) :
    FirstAt p (x :: xs) 0 x :=
  ⟨by simp, hx, fun _ _ hj _ => absurd hj (Nat.not_lt_zero _)⟩

/-- A first match of the tail is a first match of the list when the head does not match. -/
theorem FirstAt_tail {α : Type} (p : α → Prop) (x y : α) (xs : List α) (i : Nat)
    (hx : ¬ p x) (h : FirstAt p xs i y) : FirstAt p (x :: xs) (i + 1) y := by
  obtain ⟨hi, hy, hlt⟩ := h
  refine ⟨by simpa using hi, hy, ?_⟩
  intro j z hj hz
  cases j with
  | zero =>
    simp at hz
    subst hz
    exact hx
  | succ j => exact hlt j z (by omega) (by simpa using hz)

/-- A first match of a list whose head does not match lies in the tail. -/
theorem FirstAt_of_cons {α : Type} (p : α → Prop) (x y : α) (xs : List α) (i : Nat)
    (hx : ¬ p x) (h : FirstAt p (x :: xs) i y) : ∃ k, i = k + 1 ∧ FirstAt p xs k y := by
  obtain ⟨hi, hy, hlt⟩ := h
  cases i with
  | zero =>
    simp at hi
    subst hi
    exact absurd hy hx
  | succ k =>
    refine ⟨k, rfl, by simpa using hi, hy, ?_⟩
    intro j z hj hz
    exact hlt (j + 1) z (by omega) (by simpa using hz)

/-- A first match at index 0 is the head. -/
theorem FirstAt_zero {α : Type} (p : α → Prop) (x y : α) (xs : List α)
    (h : FirstAt p (x :: xs) 0 y) : y = x := by
  obtain ⟨hi, _, _⟩ := h
  simpa using hi.symm

/-- A list has a first match or no match at all. -/
theorem FirstAt_or_none {α : Type} (p : α → Prop) [DecidablePred p] (xs : List α) :
    (∀ x ∈ xs, ¬ p x) ∨ ∃ i x, FirstAt p xs i x := by
  induction xs with
  | nil => exact Or.inl (by simp)
  | cons a as ih =>
    by_cases ha : p a
    · exact Or.inr ⟨0, a, FirstAt_head p a as ha⟩
    · rcases ih with hn | ⟨i, x, hx⟩
      · exact Or.inl (by
          intro x hx
          rcases List.mem_cons.mp hx with rfl | hx
          · exact ha
          · exact hn x hx)
      · exact Or.inr ⟨i + 1, x, FirstAt_tail p a x as i ha hx⟩

/-- A first match is a member that matches. -/
theorem FirstAt_mem {α : Type} (p : α → Prop) (xs : List α) (i : Nat) (x : α)
    (h : FirstAt p xs i x) : x ∈ xs ∧ p x :=
  ⟨List.getElem?_mem h.1, h.2.1⟩

/-- Two first matches of the same list coincide. -/
theorem FirstAt_unique {α : Type} (p : α → Prop) (xs : List α) (i j : Nat) (x y : α)
    (hx : FirstAt p xs i x) (hy : FirstAt p xs j y) : i = j ∧ x = y := by
  have hij : i = j := by
    rcases Nat.lt_trichotomy i j with h | h | h
    · exact absurd hx.2.1 (hy.2.2 i x h hx.1)
    · exact h
    · exact absurd hy.2.1 (hx.2.2 j y h hy.1)
  subst hij
  refine ⟨rfl, ?_⟩
  have := hx.1.symm.trans hy.1
  simpa using this

/-- The loop that appends one item per element builds the image of the list. -/
theorem foldl_append_singleton {α β : Type} (f : α → β) (xs : List α) (init : List β) :
    xs.foldl (fun acc x => acc ++ [f x]) init = init ++ xs.map f := by
  induction xs generalizing init with
  | nil => simp
  | cons a as ih => simp [List.foldl_cons, ih]

/-! ## The lookup loops -/

/-- The scan of `GroupsNode.Lookup` ends with ENOENT when no group has the name. -/
theorem GroupsNode_Lookup_loop_none (name : GoString) (gs : List Group)
    (h : ∀ g ∈ gs, g.Name ≠ name) : GroupsNode.Lookup.loop name gs = (none, ENOENT) := by
  induction gs with
  | nil => rfl
  | cons a as ih =>
    have ha : ¬ name = a.Name := fun e => h a (List.mem_cons_self _ _) e.symm
    rw [GroupsNode.Lookup.loop, if_neg ha]
    exact ih (fun g hg => h g (List.mem_cons_of_mem _ hg))

/-- The scan of `GroupsNode.Lookup` stops at the first group that has the name. -/
theorem GroupsNode_Lookup_loop_first (name : GoString) (gs : List Group) (i : Nat) (g : Group)
    (h : FirstAt (fun x => x.Name = name) gs i g) :
    GroupsNode.Lookup.loop name gs =
      (some (NewInode (.group { group := g }) { Mode := S_IFDIR ||| 0o444 }), OK) := by
  induction gs generalizing i with
  | nil => simp [FirstAt] at h
  | cons a as ih =>
    by_cases ha : name = a.Name
    · have hi : i = 0 := by
        rcases Nat.eq_zero_or_pos i with h0 | hpos
        · exact h0
        · exact absurd ha.symm (h.2.2 0 a hpos (by simp))
      subst hi
      rw [FirstAt_zero _ a g as h, GroupsNode.Lookup.loop, if_pos ha]
    · obtain ⟨k, _, hk⟩ := FirstAt_of_cons _ a g as i (fun e => ha e.symm) h
      rw [GroupsNode.Lookup.loop, if_neg ha]
      exact ih k hk

/-- The scan of `EntriesNode.Lookup` ends with ENOENT when no entry has the display name. -/
theorem EntriesNode_Lookup_loop_none (name : GoString) (es : List Entry)
    (h : ∀ e ∈ es, entryTitle e ≠ name) :
    EntriesNode.Lookup.loop name es = (none, ENOENT) := by
  induction es with
  | nil => rfl
  | cons a as ih =>
    have ha : ¬ name = entryTitle a := fun e => h a (List.mem_cons_self _ _) e.symm
    rw [EntriesNode.Lookup.loop, if_neg ha]
    exact ih (fun e he => h e (List.mem_cons_of_mem _ he))

/-- The scan of `EntriesNode.Lookup` stops at the first entry that has the display name. -/
theorem EntriesNode_Lookup_loop_first (name : GoString) (es : List Entry) (i : Nat) (e : Entry)
    (h : FirstAt (fun x => entryTitle x = name) es i e) :
    EntriesNode.Lookup.loop name es =
      (some (NewInode (.entry { entry := e }) { Mode := S_IFDIR ||| 0o444 }), OK) := by
  induction es generalizing i with
  | nil => simp [FirstAt] at h
  | cons a as ih =>
    by_cases ha : name = entryTitle a
    · have hi : i = 0 := by
        rcases Nat.eq_zero_or_pos i with h0 | hpos
        · exact h0
        · exact absurd ha.symm (h.2.2 0 a hpos (by simp))
      subst hi
      rw [FirstAt_zero _ a e as h, EntriesNode.Lookup.loop, if_pos ha]
    · obtain ⟨k, _, hk⟩ := FirstAt_of_cons _ a e as i (fun e => ha e.symm) h
      rw [EntriesNode.Lookup.loop, if_neg ha]
      exact ih k hk

/-- The scan of `EntryNode.Lookup` ends with ENOENT when no field has the key. -/
theorem EntryNode_Lookup_loop_none (entry : Entry) (name : GoString) (vs : List ValueData)
    (h : ∀ v ∈ vs, v.Key ≠ name) : EntryNode.Lookup.loop entry name vs = (none, ENOENT) := by
  induction vs with
  | nil => rfl
  | cons a as ih =>
    rw [EntryNode.Lookup.loop, if_neg (h a (List.mem_cons_self _ _))]
    exact ih (fun v hv => h v (List.mem_cons_of_mem _ hv))

/-- The scan of `EntryNode.Lookup` stops at the first field that has the key. -/
theorem EntryNode_Lookup_loop_first (entry : Entry) (name : GoString) (vs : List ValueData)
    (i : Nat) (v : ValueData) (h : FirstAt (fun x => x.Key = name) vs i v) :
    EntryNode.Lookup.loop entry name vs =
      (some (NewInode (.value { entry := entry, value := v }) { Mode := 0o444 }), OK) := by
  induction vs generalizing i with
  | nil => simp [FirstAt] at h
  | cons a as ih =>
    by_cases ha : a.Key = name
    · have hi : i = 0 := by
        rcases Nat.eq_zero_or_pos i with h0 | hpos
        · exact h0
        · exact absurd ha (h.2.2 0 a hpos (by simp))
      subst hi
      rw [FirstAt_zero _ a v as h, EntryNode.Lookup.loop, if_pos ha]
    · obtain ⟨k, _, hk⟩ := FirstAt_of_cons _ a v as i ha h
      rw [EntryNode.Lookup.loop, if_neg ha]
      exact ih k hk

/-- The scan of `Entry.Get` finds nothing when no field has the key. -/
theorem Entry_Get_loop_none (key : GoString) (vs : List ValueData)
    (h : ∀ v ∈ vs, v.Key ≠ key) : Entry.Get.loop key vs = none := by
  induction vs with
  | nil => rfl
  | cons a as ih =>
    rw [Entry.Get.loop, if_neg (h a (List.mem_cons_self _ _))]
    exact ih (fun v hv => h v (List.mem_cons_of_mem _ hv))

/-- The scan of `Entry.Get` stops at the first field that has the key. -/
theorem Entry_Get_loop_first (key : GoString) (vs : List ValueData) (i : Nat) (v : ValueData)
    (h : FirstAt (fun x => x.Key = key) vs i v) : Entry.Get.loop key vs = some v := by
  induction vs generalizing i with
  | nil => simp [FirstAt] at h
  | cons a as ih =>
    by_cases ha : a.Key = key
    · have hi : i = 0 := by
        rcases Nat.eq_zero_or_pos i with h0 | hpos
        · exact h0
        · exact absurd ha (h.2.2 0 a hpos (by simp))
      subst hi
      rw [FirstAt_zero _ a v as h, Entry.Get.loop, if_pos ha]
    · obtain ⟨k, _, hk⟩ := FirstAt_of_cons _ a v as i ha h
      rw [Entry.Get.loop, if_neg ha]
      exact ih k hk

/-- The entry-list step of a group node. -/
theorem GroupNode.Lookup_entries (gn : GroupNode) :
    gn.Lookup (goStr "entries") =
      (some (NewInode (.entries { group := some gn.group, entries := gn.group.Entries })
        { Mode := S_IFDIR ||| 0o444 }), OK) := by
  have hne : ¬ goStr "entries" = goStr "groups" := by decide
  rw [GroupNode.Lookup, if_neg hne, if_pos rfl]

/-- The listing of a group-list node is the image of its groups. -/
theorem GroupsNode_Readdir_eq_map (rn : GroupsNode) :
    rn.Readdir =
      (rn.groups.map
        (fun g => ({ Mode := S_IFDIR ||| 0o444, Name := g.Name } : DirEntry)), OK) := by
  simp [GroupsNode.Readdir, foldl_append_singleton]

/-- The listing of an entry-list node is the image of its entries. -/
theorem EntriesNode_Readdir_eq_map (en : EntriesNode) :
    en.Readdir =
      (en.entries.map
        (fun e => ({ Mode := S_IFDIR ||| 0o444, Name := entryTitle e } : DirEntry)), OK) := by
  simp [EntriesNode.Readdir, foldl_append_singleton]

/-- The listing of an entry node is the image of its fields. -/
theorem EntryNode_Readdir_eq_map (en : EntryNode) :
    en.Readdir =
      (en.entry.Values.map
        (fun vd => ({ Mode := S_IFDIR ||| 0o444, Name := vd.Key } : DirEntry)), OK) := by
  simp [EntryNode.Readdir, foldl_append_singleton]

/-- The title of an entry that has no field "Title" reads as the empty string. -/
theorem Entry.GetContent_absent (e : Entry) (key : GoString)
    (h : ∀ v ∈ e.Values, v.Key ≠ key) : e.GetContent key = [] := by
  simp [Entry.GetContent, Entry.Get, Entry_Get_loop_none key e.Values h]

/-- The title of an entry is the content of its first field "Title". -/
theorem Entry.GetContent_first (e : Entry) (key : GoString) (i : Nat) (v : ValueData)
    (h : FirstAt (fun x => x.Key = key) e.Values i v) : e.GetContent key = v.Value.Content := by
  simp [Entry.GetContent, Entry.Get, Entry_Get_loop_first key e.Values i v h]

/-- The display name when the title is empty. -/
theorem entryTitle_of_empty (e : Entry) (h : e.GetContent (goStr "Title") = []) :
    entryTitle e = e.UUID.val := by
  simp [entryTitle, h]

/-- The display name when the title is not empty. -/
theorem entryTitle_of_nonempty (e : Entry) (h : e.GetContent (goStr "Title") ≠ []) :
    entryTitle e = e.GetContent (goStr "Title") := by
  have hl : ¬ (e.GetContent (goStr "Title")).length = 0 := by
    simpa [List.length_eq_zero] using h
  simp only [entryTitle]
  rw [if_neg hl]

/-- The success and the miss errno differ. -/
theorem OK_ne_ENOENT : OK ≠ ENOENT := by decide

/-! ## The sample store, evaluated -/

/-- The entry with the empty title is named by the bytes of its identifier. -/
theorem entryTitle_untitledEntry : entryTitle untitledEntry = otherUUID.val := by rfl

/-- Of two entries titled "Bank" the lookup returns the first. -/
theorem Lookup_Bank_twice :
    EntriesNode.Lookup { group := none, entries := [bankEntry, secondBankEntry] } (goStr "Bank") =
      (some (NewInode (.entry { entry := bankEntry }) { Mode := S_IFDIR ||| 0o444 }), OK) := by
  rfl

/-- Of two fields with the key "Password" the lookup returns the first. -/
theorem Lookup_Password_twice :
    EntryNode.Lookup { entry := untitledEntry } (goStr "Password") =
      (some (NewInode
        (.value { entry := untitledEntry, value := ⟨goStr "Password", ⟨goStr "first"⟩⟩ })
        { Mode := 0o444 }), OK) := by
  rfl

/-- The names listed under the entry "Bank". -/
theorem Readdir_bankEntry :
    (EntryNode.Readdir { entry := bankEntry }).1.map DirEntry.Name =
      [goStr "Title", goStr "Username", goStr "Password"] := by
  rfl

/-- The whole password is read at offset 0, and nothing at its end. -/
theorem Read_passwordNode :
    passwordNode.Read 6 0 = .ok (goStr "s3cr3t", OK) ∧ passwordNode.Read 10 6 = .ok ([], OK) ∧
      passwordNode.Read 0 0 = .ok ([], OK) :=
  ⟨by rfl, by rfl, by rfl⟩

/-! ## The claims -/

/-- C1: for an offset with `0 <= off <= len(content)` and `off + destLen` inside the
range of `int`, `ValueNode.Read` succeeds with errno 0 and returns exactly
`content[off : min(off + destLen, len(content))]`: its length is the length of that
window, it is never longer than the buffer, its `i`-th byte is byte `off + i` of the
content; a read of the whole length at offset 0 returns the content, a read at
offset `len(content)` is empty, and a read into an empty buffer is empty. -/
theorem Read_returns_window (vn : ValueNode) (destLen : Nat) (off : Int) (h0 : 0 ≤ off)
    (hle : off ≤ (vn.value.Value.Content.length : Int))
    (hov : off + (destLen : Int) < 2 ^ 63) :
    ∃ bytes : List Byte,
      vn.Read destLen off = .ok (bytes, OK) ∧
      bytes = (vn.value.Value.Content.take
        (min (off.toNat + destLen) vn.value.Value.Content.length)).drop off.toNat ∧
      bytes.length = min (off.toNat + destLen) vn.value.Value.Content.length - off.toNat ∧
      bytes.length ≤ destLen ∧
      (∀ i, i < bytes.length → bytes[i]? = vn.value.Value.Content[off.toNat + i]?) ∧
      (off = 0 → destLen = vn.value.Value.Content.length → bytes = vn.value.Value.Content) ∧
      (off = (vn.value.Value.Content.length : Int) → bytes = []) ∧
      (destLen = 0 → bytes = []) := by
  refine ⟨_, Read_inside vn destLen off h0 hle hov, rfl, ?_, ?_, ?_, ?_, ?_, ?_⟩
  · simp [List.length_drop, List.length_take]
  · simp only [List.length_drop, List.length_take]
    omega
  · intro i hi
    simp only [List.length_drop, List.length_take] at hi
    rw [List.getElem?_drop, List.getElem?_take_of_lt (by omega)]
  · intro ho hd
    subst ho
    simp [hd]
  · intro ho
    have hk : off.toNat = vn.value.Value.Content.length := by omega
    rw [hk]
    simp
  · intro hd
    subst hd
    have hm : min (off.toNat + 0) vn.value.Value.Content.length = off.toNat := by omega
    rw [hm]
    simp

/-- C2: for every offset strictly greater than `len(content)` and every buffer
length, `ValueNode.Read` does not return: the slice expression `data[off:end]` is
evaluated with `end < off` and panics (slice bounds out of range). -/
theorem Read_past_end_panics (vn : ValueNode) (destLen : Nat) (off : Int)
    (hoff : (vn.value.Value.Content.length : Int) < off) :
    vn.Read destLen off = .error .sliceBounds := by
  unfold ValueNode.Read sliceBytes
  by_cases hc : wrapInt (off + (destLen : Int)) > (vn.value.Value.Content.length : Int)
  · simp only [if_pos hc]
    rw [if_neg (by omega)]
  · simp only [if_neg hc]
    rw [if_neg (by omega)]

/-- Witness of C1: reading 3 bytes at offset 2 of the password "s3cr3t" returns "cr3". -/
theorem Read_returns_window_witness :
    ∃ bytes : List Byte,
      passwordNode.Read 3 2 = .ok (bytes, OK) ∧ bytes = goStr "cr3" ∧ bytes.length ≤ 3 := by
  obtain ⟨bytes, hr, hb, _, hl, _⟩ :=
    Read_returns_window passwordNode 3 2 (by decide) (by decide) (by decide)
  exact ⟨bytes, hr, by rw [hb]; rfl, hl⟩

/-- Witness of C2: reading 10 bytes at offset 7 of the 6-byte password "s3cr3t" panics. -/
theorem Read_past_end_panics_witness :
    ((passwordNode.value.Value.Content.length : Int) < 7) ∧
      passwordNode.Read 10 7 = .error .sliceBounds :=
  ⟨by decide, Read_past_end_panics passwordNode 10 7 (by decide)⟩

/-- C3: path resolution composes end to end. When `g` is the first root group named
`n`, `e` the first entry of `g` whose display name is `t` and `f` the first value of
`e` whose key is `k`, the lookups of `n` on the root, of "entries" on the group
node, of `t` on the entry-list node and of `k` on the entry node all succeed, each
on the node the previous one returned, and reading the field node at offset 0 into
a buffer of at least `len(f.content)` bytes (a Go length, below `2^63`) returns
exactly the content of `f`. -/
theorem resolve_path_then_read (groups : List Group) (n t k : GoString) (g : Group)
    (e : Entry) (f : ValueData) (ig ie iv destLen : Nat)
    (hg : FirstAt (fun x => x.Name = n) groups ig g)
    (he : FirstAt (fun x => entryTitle x = t) g.Entries ie e)
    (hf : FirstAt (fun x => x.Key = k) e.Values iv f)
    (hlen : f.Value.Content.length ≤ destLen) (hint : (destLen : Int) < 2 ^ 63) :
    ∃ (i1 i2 i3 i4 : Inode) (gn : GroupNode) (esn : EntriesNode) (en : EntryNode)
      (vn : ValueNode),
      (root groups).Lookup n = (some i1, OK) ∧ i1.ops = .group gn ∧
      gn.Lookup (goStr "entries") = (some i2, OK) ∧ i2.ops = .entries esn ∧
      esn.Lookup t = (some i3, OK) ∧ i3.ops = .entry en ∧
      en.Lookup k = (some i4, OK) ∧ i4.ops = .value vn ∧
      vn.value = f ∧ vn.entry = e ∧
      vn.Read destLen 0 = .ok (f.Value.Content, OK) := by
  refine ⟨_, _, _, _, { group := g }, { group := some g, entries := g.Entries },
    { entry := e }, { entry := e, value := f },
    GroupsNode_Lookup_loop_first n groups ig g hg, rfl,
    GroupNode.Lookup_entries _, rfl,
    EntriesNode_Lookup_loop_first t g.Entries ie e he, rfl,
    EntryNode_Lookup_loop_first e k e.Values iv f hf, rfl, rfl, rfl, ?_⟩
  have hr := Read_inside { entry := e, value := f } destLen 0 (le_refl _)
    (by simp) (by simpa using hint)
  rw [hr]
  simp only [Int.toNat_zero, List.drop_zero, Nat.zero_add]
  rw [Nat.min_eq_right hlen, List.take_length]

/-- Witness of C3: the store with the group "Personal" and the entry "Bank"; the path
Personal/entries/Bank/Password read with (0, 100) gives "s3cr3t". -/
theorem resolve_path_then_read_witness :
    ∃ (i1 i2 i3 i4 : Inode) (gn : GroupNode) (esn : EntriesNode) (en : EntryNode)
      (vn : ValueNode),
      (root [personalGroup]).Lookup (goStr "Personal") = (some i1, OK) ∧
      i1.ops = .group gn ∧
      gn.Lookup (goStr "entries") = (some i2, OK) ∧ i2.ops = .entries esn ∧
      esn.Lookup (goStr "Bank") = (some i3, OK) ∧ i3.ops = .entry en ∧
      en.Lookup (goStr "Password") = (some i4, OK) ∧ i4.ops = .value vn ∧
      vn.value = passwordField ∧ vn.entry = bankEntry ∧
      vn.Read 100 0 = .ok (goStr "s3cr3t", OK) :=
  resolve_path_then_read [personalGroup] (goStr "Personal") (goStr "Bank")
    (goStr "Password") personalGroup bankEntry passwordField 0 0 2 100
    (FirstAt_head _ personalGroup [] rfl)
    (FirstAt_head _ bankEntry [] (by rfl))
    (FirstAt_tail _ titleField passwordField _ 1
      (by decide : ¬ titleField.Key = goStr "Password")
      (FirstAt_tail _ usernameField passwordField _ 0
        (by decide : ¬ usernameField.Key = goStr "Password")
        (FirstAt_head _ passwordField [] rfl)))
    (by decide) (by decide)

/-- C4, as stated, fails: in the group list [emptyPersonalGroup, personalGroup] both
groups are named "Personal"; the lookup of the name of the second group returns a
node backed by the first one, whose entries differ. -/
theorem Lookup_own_name_counterexample :
    (root [emptyPersonalGroup, personalGroup]).groups[1]? = some personalGroup ∧
    (root [emptyPersonalGroup, personalGroup]).Lookup personalGroup.Name =
      (some (NewInode (.group { group := emptyPersonalGroup }) { Mode := S_IFDIR ||| 0o444 }),
        OK) ∧
    emptyPersonalGroup.Entries ≠ personalGroup.Entries ∧
    (root [emptyPersonalGroup, personalGroup]).Lookup personalGroup.Name ≠
      (some (NewInode (.group { group := personalGroup }) { Mode := S_IFDIR ||| 0o444 }),
        OK) := by
  have hne : emptyPersonalGroup.Entries ≠ personalGroup.Entries := by
    intro h
    exact List.noConfusion h
  refine ⟨by rfl, rfl, hne, ?_⟩
  intro h
  have h1 : (root [emptyPersonalGroup, personalGroup]).Lookup personalGroup.Name =
      (some (NewInode (.group { group := emptyPersonalGroup }) { Mode := S_IFDIR ||| 0o444 }),
        OK) := rfl
  rw [h1] at h
  have h2 := congrArg Prod.fst h
  simp only [NewInode, Option.some.injEq, Inode.mk.injEq, InodeEmbedder.group.injEq,
    GroupNode.mk.injEq] at h2
  exact hne (congrArg Group.Entries h2.1)

/-- C4, amended: for a group-list node and a child group `g` at index `i` such that
no child group at a smaller index has the name of `g`, the lookup of the name of
`g` succeeds and returns a group node backed by `g` itself: the same sub-groups,
entries and timestamps. -/
theorem GroupsNode_Lookup_own_name (rn : GroupsNode) (i : Nat) (g : Group)
    (hi : rn.groups[i]? = some g)
    (hfirst : ∀ j x, j < i → rn.groups[j]? = some x → x.Name ≠ g.Name) :
    ∃ (inode : Inode) (gn : GroupNode),
      rn.Lookup g.Name = (some inode, OK) ∧ inode.ops = .group gn ∧ gn.group = g ∧
      gn.group.Groups = g.Groups ∧ gn.group.Entries = g.Entries ∧
      gn.group.Times = g.Times :=
  ⟨_, { group := g },
    GroupsNode_Lookup_loop_first g.Name rn.groups i g ⟨hi, rfl, hfirst⟩,
    rfl, rfl, rfl, rfl, rfl⟩

/-- Witness of C4 amended: in [emptyPersonalGroup, personalGroup] the first group is
returned for its own name. -/
theorem GroupsNode_Lookup_own_name_witness :
    ∃ (inode : Inode) (gn : GroupNode),
      (root [emptyPersonalGroup, personalGroup]).Lookup emptyPersonalGroup.Name =
        (some inode, OK) ∧
      inode.ops = .group gn ∧ gn.group = emptyPersonalGroup ∧
      gn.group.Groups = emptyPersonalGroup.Groups ∧
      gn.group.Entries = emptyPersonalGroup.Entries ∧
      gn.group.Times = emptyPersonalGroup.Times :=
  GroupsNode_Lookup_own_name (root [emptyPersonalGroup, personalGroup]) 0 emptyPersonalGroup
    (by rfl) (fun j _ hj _ => absurd hj (Nat.not_lt_zero j))

/-- C5: for a group-list node and a name, `GroupsNode.Lookup` either finds no child
group with that name and returns no inode with ENOENT, or returns with errno 0 a
directory node (mode `S_IFDIR | 0444`) backed by the first child group, in stored
order, whose name is byte-equal to the requested name; ENOENT is returned if and
only if no child group has that name. -/
theorem GroupsNode_Lookup_first_match (rn : GroupsNode) (name : GoString) :
    (((∀ g ∈ rn.groups, g.Name ≠ name) ∧ rn.Lookup name = (none, ENOENT)) ∨
      (∃ i g, FirstAt (fun x => x.Name = name) rn.groups i g ∧
        rn.Lookup name =
          (some (NewInode (.group { group := g }) { Mode := S_IFDIR ||| 0o444 }), OK))) ∧
    ((rn.Lookup name).2 = ENOENT ↔ ∀ g ∈ rn.groups, g.Name ≠ name) ∧
    ((rn.Lookup name).1 = none ↔ ∀ g ∈ rn.groups, g.Name ≠ name) := by
  rcases FirstAt_or_none (fun x : Group => x.Name = name) rn.groups with hn | ⟨i, g, hg⟩
  · have hl : rn.Lookup name = (none, ENOENT) := GroupsNode_Lookup_loop_none name rn.groups hn
    have hn2 : ∀ g ∈ rn.groups, g.Name ≠ name := hn
    refine ⟨Or.inl ⟨hn2, hl⟩, ?_, ?_⟩
    · rw [hl]
      exact ⟨fun _ => hn2, fun _ => rfl⟩
    · rw [hl]
      exact ⟨fun _ => hn2, fun _ => rfl⟩
  · have hl := GroupsNode_Lookup_loop_first name rn.groups i g hg
    have hmem := FirstAt_mem _ _ _ _ hg
    have hex : ¬ ∀ x ∈ rn.groups, x.Name ≠ name := fun h => h g hmem.1 hmem.2
    refine ⟨Or.inr ⟨i, g, hg, hl⟩, ?_, ?_⟩
    · rw [GroupsNode.Lookup, hl]
      exact ⟨fun h => absurd h OK_ne_ENOENT, fun h => absurd h hex⟩
    · rw [GroupsNode.Lookup, hl]
      exact ⟨fun h => Option.noConfusion h, fun h => absurd h hex⟩

/-- C6: for a group node over the group `g`, `GroupNode.Lookup` succeeds exactly on
the names "groups" and "entries": "groups" yields a group-list node over the
sub-groups of `g`, "entries" an entry-list node over the entries of `g`, both bound
to `g`; every other name yields no inode and ENOENT, among them the empty name and
the variants "Groups" and "ENTRIES". -/
theorem GroupNode_Lookup_fixed_names (gn : GroupNode) (name : GoString) :
    (name = goStr "groups" →
      gn.Lookup name =
        (some (NewInode (.groups { group := some gn.group, groups := gn.group.Groups })
          { Mode := S_IFDIR ||| 0o444 }), OK)) ∧
    (name = goStr "entries" →
      gn.Lookup name =
        (some (NewInode (.entries { group := some gn.group, entries := gn.group.Entries })
          { Mode := S_IFDIR ||| 0o444 }), OK)) ∧
    (name ≠ goStr "groups" → name ≠ goStr "entries" → gn.Lookup name = (none, ENOENT)) ∧
    ((gn.Lookup name).2 = OK ↔ name = goStr "groups" ∨ name = goStr "entries") ∧
    ((gn.Lookup name).1.isSome ↔ name = goStr "groups" ∨ name = goStr "entries") ∧
    gn.Lookup [] = (none, ENOENT) ∧
    gn.Lookup (goStr "Groups") = (none, ENOENT) ∧
    gn.Lookup (goStr "ENTRIES") = (none, ENOENT) := by
  have hg : ∀ n, n = goStr "groups" → gn.Lookup n =
      (some (NewInode (.groups { group := some gn.group, groups := gn.group.Groups })
        { Mode := S_IFDIR ||| 0o444 }), OK) := by
    intro n hn
    rw [GroupNode.Lookup, if_pos hn]
  have he : ∀ n, n = goStr "entries" → gn.Lookup n =
      (some (NewInode (.entries { group := some gn.group, entries := gn.group.Entries })
        { Mode := S_IFDIR ||| 0o444 }), OK) := by
    intro n hn
    subst hn
    exact GroupNode.Lookup_entries gn
  have ho : ∀ n, n ≠ goStr "groups" → n ≠ goStr "entries" →
      gn.Lookup n = (none, ENOENT) := by
    intro n h1 h2
    rw [GroupNode.Lookup, if_neg h1, if_neg h2]
  refine ⟨hg name, he name, ho name, ?_, ?_, ho _ (by decide) (by decide),
    ho _ (by decide) (by decide), ho _ (by decide) (by decide)⟩
  · by_cases h1 : name = goStr "groups"
    · subst h1
      rw [hg _ rfl]
      simp
    · by_cases h2 : name = goStr "entries"
      · subst h2
        rw [he _ rfl]
        simp
      · rw [ho name h1 h2]
        simp only [h1, h2, or_self, iff_false]
        exact fun h => OK_ne_ENOENT h.symm
  · by_cases h1 : name = goStr "groups"
    · subst h1
      rw [hg _ rfl]
      simp
    · by_cases h2 : name = goStr "entries"
      · subst h2
        rw [he _ rfl]
        simp
      · rw [ho name h1 h2]
        simp [h1, h2]

/-- C7: for an entry-list node and a name, `EntriesNode.Lookup` either finds no entry
with that display name (`entryTitle`) and returns no inode with ENOENT, or returns
with errno 0 an entry node backed by the first entry, in stored order, whose
display name equals the name; ENOENT is returned if and only if no entry has that
display name; the entry found never stands at an index whose display name
collides with that of an entry at a smaller index. -/
theorem EntriesNode_Lookup_first_match (en : EntriesNode) (name : GoString) :
    (((∀ e ∈ en.entries, entryTitle e ≠ name) ∧ en.Lookup name = (none, ENOENT)) ∨
      (∃ i e, FirstAt (fun x => entryTitle x = name) en.entries i e ∧
        en.Lookup name =
          (some (NewInode (.entry { entry := e }) { Mode := S_IFDIR ||| 0o444 }), OK) ∧
        ∀ j e2 k e1, en.entries[j]? = some e2 → k < j → en.entries[k]? = some e1 →
          entryTitle e1 = entryTitle e2 → i ≠ j)) ∧
    ((en.Lookup name).2 = ENOENT ↔ ∀ e ∈ en.entries, entryTitle e ≠ name) ∧
    ((en.Lookup name).1 = none ↔ ∀ e ∈ en.entries, entryTitle e ≠ name) := by
  rcases FirstAt_or_none (fun x : Entry => entryTitle x = name) en.entries with
    hn | ⟨i, e, he⟩
  · have hl : en.Lookup name = (none, ENOENT) :=
      EntriesNode_Lookup_loop_none name en.entries hn
    have hn2 : ∀ e ∈ en.entries, entryTitle e ≠ name := hn
    refine ⟨Or.inl ⟨hn2, hl⟩, ?_, ?_⟩
    · rw [hl]
      exact ⟨fun _ => hn2, fun _ => rfl⟩
    · rw [hl]
      exact ⟨fun _ => hn2, fun _ => rfl⟩
  · have hl := EntriesNode_Lookup_loop_first name en.entries i e he
    have hmem := FirstAt_mem _ _ _ _ he
    have hex : ¬ ∀ x ∈ en.entries, entryTitle x ≠ name := fun h => h e hmem.1 hmem.2
    refine ⟨Or.inr ⟨i, e, he, hl, ?_⟩, ?_, ?_⟩
    · intro j e2 k e1 hj hkj hk hcol hij
      subst hij
      have hee : e2 = e := by
        have := hj.symm.trans he.1
        simpa using this
      subst hee
      have ht : entryTitle e2 = name := he.2.1
      exact he.2.2 k e1 hkj hk (hcol.trans ht)
    · rw [EntriesNode.Lookup, hl]
      exact ⟨fun h => absurd h OK_ne_ENOENT, fun h => absurd h hex⟩
    · rw [EntriesNode.Lookup, hl]
      exact ⟨fun h => Option.noConfusion h, fun h => absurd h hex⟩

/-- C8: for an entry node and a name, `EntryNode.Lookup` either finds no field with
that key and returns no inode with ENOENT, or returns with errno 0 a field node
(mode 0444) whose value is the first field, in stored order, whose key equals the
name, and whose owning entry is the entry of the node; ENOENT is returned if and
only if no field has that key. -/
theorem EntryNode_Lookup_first_match (en : EntryNode) (name : GoString) :
    (((∀ v ∈ en.entry.Values, v.Key ≠ name) ∧ en.Lookup name = (none, ENOENT)) ∨
      (∃ i v, FirstAt (fun x => x.Key = name) en.entry.Values i v ∧
        en.Lookup name =
          (some (NewInode (.value { entry := en.entry, value := v }) { Mode := 0o444 }), OK))) ∧
    ((en.Lookup name).2 = ENOENT ↔ ∀ v ∈ en.entry.Values, v.Key ≠ name) ∧
    ((en.Lookup name).1 = none ↔ ∀ v ∈ en.entry.Values, v.Key ≠ name) := by
  rcases FirstAt_or_none (fun x : ValueData => x.Key = name) en.entry.Values with
    hn | ⟨i, v, hv⟩
  · have hl : en.Lookup name = (none, ENOENT) :=
      EntryNode_Lookup_loop_none en.entry name en.entry.Values hn
    have hn2 : ∀ v ∈ en.entry.Values, v.Key ≠ name := hn
    refine ⟨Or.inl ⟨hn2, hl⟩, ?_, ?_⟩
    · rw [hl]
      exact ⟨fun _ => hn2, fun _ => rfl⟩
    · rw [hl]
      exact ⟨fun _ => hn2, fun _ => rfl⟩
  · have hl := EntryNode_Lookup_loop_first en.entry name en.entry.Values i v hv
    have hmem := FirstAt_mem _ _ _ _ hv
    have hex : ¬ ∀ x ∈ en.entry.Values, x.Key ≠ name := fun h => h v hmem.1 hmem.2
    refine ⟨Or.inr ⟨i, v, hv, hl⟩, ?_, ?_⟩
    · rw [EntryNode.Lookup, hl]
      exact ⟨fun h => absurd h OK_ne_ENOENT, fun h => absurd h hex⟩
    · rw [EntryNode.Lookup, hl]
      exact ⟨fun h => Option.noConfusion h, fun h => absurd h hex⟩

/-- C9: the display name `entryTitle` of an entry is its Title value (the content of
its first field with the key "Title") when that value is not empty; when the
Title is empty or the entry has no such field, it is the string of the 16 bytes of
the UUID, hence of length 16, not empty, and the same for any other entry with the
same UUID and an empty title; so the display name is never empty. -/
theorem entryTitle_title_or_uuid (e : Entry) :
    (∀ i v, FirstAt (fun x => x.Key = goStr "Title") e.Values i v →
      (v.Value.Content ≠ [] → entryTitle e = v.Value.Content) ∧
      (v.Value.Content = [] → entryTitle e = e.UUID.val)) ∧
    ((∀ v ∈ e.Values, v.Key ≠ goStr "Title") → entryTitle e = e.UUID.val) ∧
    (e.GetContent (goStr "Title") ≠ [] → entryTitle e = e.GetContent (goStr "Title")) ∧
    (e.GetContent (goStr "Title") = [] →
      entryTitle e = e.UUID.val ∧ (entryTitle e).length = 16 ∧
      ∀ e2 : Entry, e2.UUID = e.UUID → e2.GetContent (goStr "Title") = [] →
        entryTitle e2 = entryTitle e) ∧
    entryTitle e ≠ [] := by
  refine ⟨?_, ?_, entryTitle_of_nonempty e, ?_, ?_⟩
  · intro i v hv
    have hc := Entry.GetContent_first e (goStr "Title") i v hv
    constructor
    · intro hne
      rw [← hc]
      exact entryTitle_of_nonempty e (by rw [hc]; exact hne)
    · intro hem
      exact entryTitle_of_empty e (by rw [hc]; exact hem)
  · intro habs
    exact entryTitle_of_empty e (Entry.GetContent_absent e _ habs)
  · intro hem
    refine ⟨entryTitle_of_empty e hem, ?_, ?_⟩
    · rw [entryTitle_of_empty e hem]
      exact e.UUID.property
    · intro e2 hu hem2
      rw [entryTitle_of_empty e hem, entryTitle_of_empty e2 hem2, hu]
  · by_cases hem : e.GetContent (goStr "Title") = []
    · rw [entryTitle_of_empty e hem]
      intro h0
      have h16 := e.UUID.property
      rw [h0] at h16
      exact absurd h16 (by decide)
    · rw [entryTitle_of_nonempty e hem]
      exact hem

/-- C10: directory listings are the order-preserving image of the backing sequence.
`Readdir` succeeds; on a group-list node it returns one item per child group, the
`i`-th named after the `i`-th group; on an entry-list node one item per entry, the
`i`-th named `entryTitle` of the `i`-th entry; on an entry node one item per field,
the `i`-th named after the key of the `i`-th field; so the names are the names
of the backing sequence, in order, duplicates kept, and an empty sequence gives an
empty listing. -/
theorem Readdir_lists_in_stored_order :
    (∀ rn : GroupsNode,
      rn.Readdir.2 = OK ∧ rn.Readdir.1.length = rn.groups.length ∧
      (∀ i : Nat, (rn.Readdir.1[i]?).map DirEntry.Name = (rn.groups[i]?).map Group.Name) ∧
      rn.Readdir.1.map DirEntry.Name = rn.groups.map Group.Name ∧
      (rn.groups = [] → rn.Readdir.1 = [])) ∧
    (∀ en : EntriesNode,
      en.Readdir.2 = OK ∧ en.Readdir.1.length = en.entries.length ∧
      (∀ i : Nat, (en.Readdir.1[i]?).map DirEntry.Name = (en.entries[i]?).map entryTitle) ∧
      en.Readdir.1.map DirEntry.Name = en.entries.map entryTitle ∧
      (en.entries = [] → en.Readdir.1 = [])) ∧
    (∀ en : EntryNode,
      en.Readdir.2 = OK ∧ en.Readdir.1.length = en.entry.Values.length ∧
      (∀ i : Nat,
        (en.Readdir.1[i]?).map DirEntry.Name = (en.entry.Values[i]?).map ValueData.Key) ∧
      en.Readdir.1.map DirEntry.Name = en.entry.Values.map ValueData.Key ∧
      (en.entry.Values = [] → en.Readdir.1 = [])) := by
  refine ⟨fun rn => ?_, fun en => ?_, fun en => ?_⟩
  · rw [GroupsNode_Readdir_eq_map]
    refine ⟨rfl, by simp, fun i => ?_, by simp [Function.comp_def], fun h => by simp [h]⟩
    simp only [List.getElem?_map, Option.map_map]
    rfl
  · rw [EntriesNode_Readdir_eq_map]
    refine ⟨rfl, by simp, fun i => ?_, by simp [Function.comp_def], fun h => by simp [h]⟩
    simp only [List.getElem?_map, Option.map_map]
    rfl
  · rw [EntryNode_Readdir_eq_map]
    refine ⟨rfl, by simp, fun i => ?_, by simp [Function.comp_def], fun h => by simp [h]⟩
    simp only [List.getElem?_map, Option.map_map]
    rfl

/-! ## Outcomes of the lookups and windows of the content -/

/-- The lookup of a key that some field of the entry has succeeds with mode 0444. -/
theorem EntryNode_Lookup_of_key (en : EntryNode) (name : GoString)
    (h : ∃ v ∈ en.entry.Values, v.Key = name) :
    ∃ v : ValueData, v.Key = name ∧
      en.Lookup name =
        (some (NewInode (.value { entry := en.entry, value := v }) { Mode := 0o444 }), OK) := by
  rcases FirstAt_or_none (fun x : ValueData => x.Key = name) en.entry.Values with
    hn | ⟨i, v, hv⟩
  · obtain ⟨v, hv, hk⟩ := h
    exact absurd hk (hn v hv)
  · exact ⟨v, hv.2.1, EntryNode_Lookup_loop_first en.entry name en.entry.Values i v hv⟩

/-- The two outcomes of `GroupsNode.Lookup`. -/
theorem GroupsNode_Lookup_cases (rn : GroupsNode) (name : GoString) :
    ((∀ g ∈ rn.groups, g.Name ≠ name) ∧ rn.Lookup name = (none, ENOENT)) ∨
    (∃ g ∈ rn.groups, g.Name = name ∧
      rn.Lookup name =
        (some (NewInode (.group { group := g }) { Mode := S_IFDIR ||| 0o444 }), OK)) := by
  rcases FirstAt_or_none (fun x : Group => x.Name = name) rn.groups with hn | ⟨i, g, hg⟩
  · exact Or.inl ⟨hn, GroupsNode_Lookup_loop_none name rn.groups hn⟩
  · exact Or.inr ⟨g, (FirstAt_mem _ _ _ _ hg).1, hg.2.1,
      GroupsNode_Lookup_loop_first name rn.groups i g hg⟩

/-- The two outcomes of `EntriesNode.Lookup`. -/
theorem EntriesNode_Lookup_cases (en : EntriesNode) (name : GoString) :
    ((∀ e ∈ en.entries, entryTitle e ≠ name) ∧ en.Lookup name = (none, ENOENT)) ∨
    (∃ e ∈ en.entries, entryTitle e = name ∧
      en.Lookup name =
        (some (NewInode (.entry { entry := e }) { Mode := S_IFDIR ||| 0o444 }), OK)) := by
  rcases FirstAt_or_none (fun x : Entry => entryTitle x = name) en.entries with
    hn | ⟨i, e, he⟩
  · exact Or.inl ⟨hn, EntriesNode_Lookup_loop_none name en.entries hn⟩
  · exact Or.inr ⟨e, (FirstAt_mem _ _ _ _ he).1, he.2.1,
      EntriesNode_Lookup_loop_first name en.entries i e he⟩

/-- The two outcomes of `EntryNode.Lookup`. -/
theorem EntryNode_Lookup_cases (en : EntryNode) (name : GoString) :
    ((∀ v ∈ en.entry.Values, v.Key ≠ name) ∧ en.Lookup name = (none, ENOENT)) ∨
    (∃ v ∈ en.entry.Values, v.Key = name ∧
      en.Lookup name =
        (some (NewInode (.value { entry := en.entry, value := v }) { Mode := 0o444 }), OK)) := by
  rcases FirstAt_or_none (fun x : ValueData => x.Key = name) en.entry.Values with
    hn | ⟨i, v, hv⟩
  · exact Or.inl ⟨hn, EntryNode_Lookup_loop_none en.entry name en.entry.Values hn⟩
  · exact Or.inr ⟨v, (FirstAt_mem _ _ _ _ hv).1, hv.2.1,
      EntryNode_Lookup_loop_first en.entry name en.entry.Values i v hv⟩

/-- The names that a group node lists. -/
theorem GroupNode_Readdir_names (gn : GroupNode) :
    gn.Readdir.1.map DirEntry.Name = [goStr "groups", goStr "entries"] := rfl

/-- Two adjacent windows of a list join into one window. -/
theorem window_append {α : Type} (c : List α) (k a b : Nat) (hka : k ≤ a) (hab : a ≤ b)
    (hac : a ≤ c.length) :
    (c.take a).drop k ++ (c.take b).drop a = (c.take b).drop k := by
  have hta : c.take a = (c.take b).take a := by
    rw [List.take_take, Nat.min_eq_left hab]
  have hlen : k ≤ ((c.take b).take a).length := by
    simp only [List.length_take]
    omega
  rw [hta, ← List.drop_append_of_le_length hlen, List.take_append_drop]

/-- A window of a list followed by the rest of the list is a tail of the list. -/
theorem window_append_drop {α : Type} (c : List α) (k a : Nat) (hka : k ≤ a)
    (hac : a ≤ c.length) : (c.take a).drop k ++ c.drop a = c.drop k := by
  have hlen : k ≤ (c.take a).length := by
    simp only [List.length_take]
    omega
  rw [← List.drop_append_of_le_length hlen, List.take_append_drop]

/-- The reader of chunks of `m > 0` bytes, started at an offset inside the content
with enough fuel, returns the content from that offset on. -/
theorem readChunks_from (vn : ValueNode) (m : Nat) (hm : 0 < m)
    (hov : (vn.value.Value.Content.length : Int) + (m : Int) < 2 ^ 63) :
    ∀ (fuel : Nat) (off : Int), 0 ≤ off → off ≤ (vn.value.Value.Content.length : Int) →
      vn.value.Value.Content.length + 1 ≤ fuel + off.toNat →
      readChunks vn m fuel off = some (vn.value.Value.Content.drop off.toNat) := by
  intro fuel
  induction fuel with
  | zero =>
    intro off h0 hle hf
    omega
  | succ fuel ih =>
    intro off h0 hle hf
    rw [readChunks, Read_inside vn m off h0 hle (by omega)]
    simp only []
    by_cases hend : off.toNat = vn.value.Value.Content.length
    · have hm1 : min (off.toNat + m) vn.value.Value.Content.length
          = vn.value.Value.Content.length := by omega
      rw [hm1, hend, List.take_length, List.drop_length, if_pos rfl]
    · have hlt : off.toNat < min (off.toNat + m) vn.value.Value.Content.length := by omega
      have hne : ¬ (vn.value.Value.Content.take
          (min (off.toNat + m) vn.value.Value.Content.length)).drop off.toNat = [] := by
        intro he
        have hl := congrArg List.length he
        simp only [List.length_drop, List.length_take, List.length_nil] at hl
        omega
      have hnext : (off + (((vn.value.Value.Content.take
          (min (off.toNat + m) vn.value.Value.Content.length)).drop off.toNat).length : Int)).toNat
          = min (off.toNat + m) vn.value.Value.Content.length := by
        simp only [List.length_drop, List.length_take]
        omega
      rw [if_neg hne, ih _ (by omega) (by
        simp only [List.length_drop, List.length_take]
        omega) (by rw [hnext]; omega), hnext]
      simp only [Option.map_some']
      rw [window_append_drop _ _ _ (Nat.le_of_lt hlt) (Nat.min_le_right _ _)]

/-- The chunk reader on the password, evaluated: three reads, the last one empty. -/
theorem readChunks_passwordNode :
    readChunks passwordNode 4 3 0 = some (goStr "s3cr3t") ∧
    readChunks passwordNode 4 2 0 = none ∧
    passwordNode.Read 4 0 = .ok (goStr "s3cr", OK) ∧
    passwordNode.Read 4 4 = .ok (goStr "3t", OK) ∧
    passwordNode.Read 4 6 = .ok ([], OK) :=
  ⟨by rfl, by rfl, by rfl, by rfl, by rfl⟩

/-! ## The claims on attributes, types and sequential reads -/

/-- C11: the size that `ValueNode.Getattr` reports is the byte length of the content
of the field, whatever the attribute record held before, and it is the length of
the result of `Read(0, n)` for every buffer length `n >= len(content)` (a Go
length, below `2^63`). -/
theorem Getattr_size_is_content_length (vn : ValueNode) (out : AttrOut) (n : Nat)
    (hn : vn.value.Value.Content.length ≤ n) (hint : (n : Int) < 2 ^ 63) :
    (vn.Getattr out).1.Size = vn.value.Value.Content.length ∧
    (vn.Getattr out).2 = OK ∧
    ∃ bytes : List Byte,
      vn.Read n 0 = .ok (bytes, OK) ∧ bytes.length = (vn.Getattr out).1.Size := by
  refine ⟨rfl, rfl, vn.value.Value.Content, ?_, rfl⟩
  rw [Read_inside vn n 0 (le_refl _) (by simp) (by simpa using hint)]
  simp only [Int.toNat_zero, List.drop_zero, Nat.zero_add]
  rw [Nat.min_eq_right hn, List.take_length]

/-- Witness of C11: the password "s3cr3t" has size 6, the length of a read of 100
bytes at offset 0. -/
theorem Getattr_size_is_content_length_witness :
    (passwordNode.Getattr staleAttr).1.Size = 6 ∧
    ∃ bytes : List Byte,
      passwordNode.Read 100 0 = .ok (bytes, OK) ∧
      bytes.length = (passwordNode.Getattr staleAttr).1.Size := by
  obtain ⟨hs, _, bytes, hr, hl⟩ :=
    Getattr_size_is_content_length passwordNode staleAttr 100 (by decide) (by decide)
  exact ⟨by rw [hs]; rfl, bytes, hr, hl⟩

/-- C12: for every negative offset and every buffer length, `ValueNode.Read` returns
no byte sequence: the slice expression `data[off:end]` panics on the negative lower
bound; the offset is not clamped to 0. -/
theorem Read_negative_offset_fails (vn : ValueNode) (destLen : Nat) (off : Int)
    (hneg : off < 0) :
    vn.Read destLen off = .error .sliceBounds ∧
    ∀ bytes errno, vn.Read destLen off ≠ .ok (bytes, errno) := by
  have h : vn.Read destLen off = .error .sliceBounds := by
    unfold ValueNode.Read sliceBytes
    simp only []
    rw [if_neg (fun hc => absurd hc.1 (by omega))]
  refine ⟨h, ?_⟩
  intro bytes errno hc
  rw [h] at hc
  exact Except.noConfusion hc

/-- Witness of C12: reading the password at offset -1 fails, though the same read at
offset 0 returns the content. -/
theorem Read_negative_offset_fails_witness :
    passwordNode.Read 100 (-1) = .error .sliceBounds ∧
    passwordNode.Read 100 0 = .ok (goStr "s3cr3t", OK) :=
  ⟨(Read_negative_offset_fails passwordNode 100 (-1) (by decide)).1, by rfl⟩

/-- C13: `Getattr` returns errno 0 on every node, and on a node with a backing record
it reports the access and modification times stored in that record, whatever the
attribute record held before: the group of a group node and of a group-list or
entry-list node bound to a group, the entry of an entry node, and the owning entry
of a field node. -/
theorem Getattr_reports_stored_times (out : AttrOut) :
    (∀ gn : GroupNode,
      (gn.Getattr out).2 = OK ∧
      (gn.Getattr out).1.Atime = gn.group.Times.LastAccessTime.Time ∧
      (gn.Getattr out).1.Mtime = gn.group.Times.LastModificationTime.Time) ∧
    (∀ (gn : GroupsNode) (g : Group), gn.group = some g →
      (gn.Getattr out).1.Atime = g.Times.LastAccessTime.Time ∧
      (gn.Getattr out).1.Mtime = g.Times.LastModificationTime.Time) ∧
    (∀ gn : GroupsNode, (gn.Getattr out).2 = OK) ∧
    (∀ (en : EntriesNode) (g : Group), en.group = some g →
      (en.Getattr out).1.Atime = g.Times.LastAccessTime.Time ∧
      (en.Getattr out).1.Mtime = g.Times.LastModificationTime.Time) ∧
    (∀ en : EntriesNode, (en.Getattr out).2 = OK) ∧
    (∀ en : EntryNode,
      (en.Getattr out).2 = OK ∧
      (en.Getattr out).1.Atime = en.entry.Times.LastAccessTime.Time ∧
      (en.Getattr out).1.Mtime = en.entry.Times.LastModificationTime.Time) ∧
    (∀ vn : ValueNode,
      (vn.Getattr out).2 = OK ∧
      (vn.Getattr out).1.Atime = vn.entry.Times.LastAccessTime.Time ∧
      (vn.Getattr out).1.Mtime = vn.entry.Times.LastModificationTime.Time) := by
  refine ⟨fun gn => ⟨rfl, rfl, rfl⟩, ?_, ?_, ?_, ?_, fun en => ⟨rfl, rfl, rfl⟩,
    fun vn => ⟨rfl, rfl, rfl⟩⟩
  · intro gn g hg
    simp only [GroupsNode.Getattr, hg]
    exact ⟨rfl, rfl⟩
  · intro gn
    cases hg : gn.group <;> simp only [GroupsNode.Getattr, hg]
  · intro en g hg
    simp only [EntriesNode.Getattr, hg]
    exact ⟨rfl, rfl⟩
  · intro en
    cases hg : en.group <;> simp only [EntriesNode.Getattr, hg]

/-- C14, as stated, fails: on the root node, which has no bound group, `Getattr`
leaves the attribute record as it was, so a record that held the creation time 13
before the call still holds 13, not the epoch. -/
theorem Getattr_root_ctime_counterexample :
    (root [personalGroup]).group = none ∧
    (root [personalGroup]).Getattr staleAttr = (staleAttr, OK) ∧
    ((root [personalGroup]).Getattr staleAttr).1.Ctime = 13 ∧
    ((root [personalGroup]).Getattr staleAttr).1.Ctime ≠ timeZero :=
  ⟨rfl, rfl, rfl, by decide⟩

/-- C14, amended: on every node that has a backing record (a group node, an entry
node, a field node, and a group-list or entry-list node bound to a group) `Getattr`
reports the creation time as the epoch, whatever the attribute record held before;
on a group-list or entry-list node with no bound group, as the root, `Getattr`
returns the attribute record unchanged. -/
theorem Getattr_ctime_epoch_when_backed (out : AttrOut) :
    (∀ gn : GroupNode, (gn.Getattr out).1.Ctime = timeZero) ∧
    (∀ en : EntryNode, (en.Getattr out).1.Ctime = timeZero) ∧
    (∀ vn : ValueNode, (vn.Getattr out).1.Ctime = timeZero) ∧
    (∀ (gn : GroupsNode) (g : Group), gn.group = some g →
      (gn.Getattr out).1.Ctime = timeZero) ∧
    (∀ (en : EntriesNode) (g : Group), en.group = some g →
      (en.Getattr out).1.Ctime = timeZero) ∧
    (∀ gn : GroupsNode, gn.group = none → gn.Getattr out = (out, OK)) ∧
    (∀ en : EntriesNode, en.group = none → en.Getattr out = (out, OK)) := by
  refine ⟨fun _ => rfl, fun _ => rfl, fun _ => rfl, ?_, ?_, ?_, ?_⟩
  · intro gn g hg
    simp only [GroupsNode.Getattr, hg]
    rfl
  · intro en g hg
    simp only [EntriesNode.Getattr, hg]
    rfl
  · intro gn hg
    simp only [GroupsNode.Getattr, hg]
  · intro en hg
    simp only [EntriesNode.Getattr, hg]

/-- C15: for an entry node and the field `v` at index `i` of its entry, `Readdir`
lists the key of `v` with the mode `S_IFDIR | 0444`, which has the directory bit,
while `Lookup` of that key materialises a node with the mode 0444, which has not:
the two file types differ. -/
theorem Readdir_type_differs_from_Lookup (en : EntryNode) (i : Nat) (v : ValueData)
    (hv : en.entry.Values[i]? = some v) :
    ∃ (d : DirEntry) (inode : Inode),
      en.Readdir.1[i]? = some d ∧ d.Name = v.Key ∧
      en.Lookup v.Key = (some inode, OK) ∧
      d.Mode = S_IFDIR ||| 0o444 ∧ d.Mode &&& S_IFDIR = S_IFDIR ∧
      inode.stableAttr.Mode = 0o444 ∧ inode.stableAttr.Mode &&& S_IFDIR = 0 ∧
      d.Mode ≠ inode.stableAttr.Mode := by
  obtain ⟨w, _, hl⟩ := EntryNode_Lookup_of_key en v.Key ⟨v, List.getElem?_mem hv, rfl⟩
  have h1 : (S_IFDIR ||| 0o444) &&& S_IFDIR = S_IFDIR := by decide
  have h2 : 0o444 &&& S_IFDIR = 0 := by decide
  have h3 : S_IFDIR ||| 0o444 ≠ 0o444 := by decide
  refine ⟨{ Mode := S_IFDIR ||| 0o444, Name := v.Key }, _, ?_, rfl, hl, rfl, h1, rfl, h2, h3⟩
  rw [EntryNode_Readdir_eq_map]
  simp only [List.getElem?_map, hv, Option.map_some']

/-- Witness of C15: under the entry "Bank" the field "Password" is listed as a
directory and looked up as a file. -/
theorem Readdir_type_differs_from_Lookup_witness :
    ∃ (d : DirEntry) (inode : Inode),
      (EntryNode.Readdir { entry := bankEntry }).1[2]? = some d ∧
      d.Name = goStr "Password" ∧
      EntryNode.Lookup { entry := bankEntry } (goStr "Password") = (some inode, OK) ∧
      d.Mode = 0o40444 ∧ inode.stableAttr.Mode = 0o444 := by
  obtain ⟨d, inode, hd, hn, hl, hm, _, hi, _, _⟩ :=
    Readdir_type_differs_from_Lookup { entry := bankEntry } 2 passwordField (by rfl)
  exact ⟨d, inode, hd, hn, hl, by rw [hm]; rfl, hi⟩

/-- C16: listing and lookup agree on which names exist. On a group-list node, a group
node, an entry-list node and an entry node, `Lookup(name)` succeeds (errno 0, an
inode is returned) if and only if `name` occurs among the names that `Readdir`
returns on the same node. -/
theorem Lookup_succeeds_iff_listed (name : GoString) :
    (∀ rn : GroupsNode,
      ((rn.Lookup name).2 = OK ↔ name ∈ rn.Readdir.1.map DirEntry.Name) ∧
      ((rn.Lookup name).1.isSome ↔ name ∈ rn.Readdir.1.map DirEntry.Name)) ∧
    (∀ gn : GroupNode,
      ((gn.Lookup name).2 = OK ↔ name ∈ gn.Readdir.1.map DirEntry.Name) ∧
      ((gn.Lookup name).1.isSome ↔ name ∈ gn.Readdir.1.map DirEntry.Name)) ∧
    (∀ en : EntriesNode,
      ((en.Lookup name).2 = OK ↔ name ∈ en.Readdir.1.map DirEntry.Name) ∧
      ((en.Lookup name).1.isSome ↔ name ∈ en.Readdir.1.map DirEntry.Name)) ∧
    (∀ en : EntryNode,
      ((en.Lookup name).2 = OK ↔ name ∈ en.Readdir.1.map DirEntry.Name) ∧
      ((en.Lookup name).1.isSome ↔ name ∈ en.Readdir.1.map DirEntry.Name)) := by
  refine ⟨fun rn => ?_, fun gn => ?_, fun en => ?_, fun en => ?_⟩
  · have hmem : name ∈ rn.Readdir.1.map DirEntry.Name ↔
        ∃ g ∈ rn.groups, g.Name = name := by
      rw [GroupsNode_Readdir_eq_map]
      simp [List.mem_map]
    rw [hmem]
    rcases GroupsNode_Lookup_cases rn name with ⟨hn, hl⟩ | ⟨g, hg, hgn, hl⟩
    · have hex : ¬ ∃ g ∈ rn.groups, g.Name = name := fun ⟨g, hg, he⟩ => hn g hg he
      rw [hl]
      exact ⟨⟨fun h => absurd h.symm OK_ne_ENOENT, fun h => absurd h hex⟩,
        ⟨fun h => Bool.noConfusion h, fun h => absurd h hex⟩⟩
    · rw [hl]
      exact ⟨⟨fun _ => ⟨g, hg, hgn⟩, fun _ => rfl⟩,
        ⟨fun _ => ⟨g, hg, hgn⟩, fun _ => rfl⟩⟩
  · rw [GroupNode_Readdir_names]
    have hmem : name ∈ [goStr "groups", goStr "entries"] ↔
        name = goStr "groups" ∨ name = goStr "entries" := by simp
    rw [hmem]
    by_cases h1 : name = goStr "groups"
    · have hl : gn.Lookup name =
          (some (NewInode (.groups { group := some gn.group, groups := gn.group.Groups })
            { Mode := S_IFDIR ||| 0o444 }), OK) := by
        rw [GroupNode.Lookup, if_pos h1]
      rw [hl]
      exact ⟨⟨fun _ => Or.inl h1, fun _ => rfl⟩, ⟨fun _ => Or.inl h1, fun _ => rfl⟩⟩
    · by_cases h2 : name = goStr "entries"
      · have hl : gn.Lookup name =
            (some (NewInode (.entries { group := some gn.group, entries := gn.group.Entries })
              { Mode := S_IFDIR ||| 0o444 }), OK) := by
          rw [GroupNode.Lookup, if_neg h1, if_pos h2]
        rw [hl]
        exact ⟨⟨fun _ => Or.inr h2, fun _ => rfl⟩, ⟨fun _ => Or.inr h2, fun _ => rfl⟩⟩
      · have hl : gn.Lookup name = (none, ENOENT) := by
          rw [GroupNode.Lookup, if_neg h1, if_neg h2]
        have hex : ¬ (name = goStr "groups" ∨ name = goStr "entries") := by
          rintro (h | h)
          · exact h1 h
          · exact h2 h
        rw [hl]
        exact ⟨⟨fun h => absurd h.symm OK_ne_ENOENT, fun h => absurd h hex⟩,
          ⟨fun h => Bool.noConfusion h, fun h => absurd h hex⟩⟩
  · have hmem : name ∈ en.Readdir.1.map DirEntry.Name ↔
        ∃ e ∈ en.entries, entryTitle e = name := by
      rw [EntriesNode_Readdir_eq_map]
      simp [List.mem_map]
    rw [hmem]
    rcases EntriesNode_Lookup_cases en name with ⟨hn, hl⟩ | ⟨e, he, hen, hl⟩
    · have hex : ¬ ∃ e ∈ en.entries, entryTitle e = name := fun ⟨e, he, h⟩ => hn e he h
      rw [hl]
      exact ⟨⟨fun h => absurd h.symm OK_ne_ENOENT, fun h => absurd h hex⟩,
        ⟨fun h => Bool.noConfusion h, fun h => absurd h hex⟩⟩
    · rw [hl]
      exact ⟨⟨fun _ => ⟨e, he, hen⟩, fun _ => rfl⟩,
        ⟨fun _ => ⟨e, he, hen⟩, fun _ => rfl⟩⟩
  · have hmem : name ∈ en.Readdir.1.map DirEntry.Name ↔
        ∃ v ∈ en.entry.Values, v.Key = name := by
      rw [EntryNode_Readdir_eq_map]
      simp [List.mem_map]
    rw [hmem]
    rcases EntryNode_Lookup_cases en name with ⟨hn, hl⟩ | ⟨v, hv, hvn, hl⟩
    · have hex : ¬ ∃ v ∈ en.entry.Values, v.Key = name := fun ⟨v, hv, h⟩ => hn v hv h
      rw [hl]
      exact ⟨⟨fun h => absurd h.symm OK_ne_ENOENT, fun h => absurd h hex⟩,
        ⟨fun h => Bool.noConfusion h, fun h => absurd h hex⟩⟩
    · rw [hl]
      exact ⟨⟨fun _ => ⟨v, hv, hvn⟩, fun _ => rfl⟩,
        ⟨fun _ => ⟨v, hv, hvn⟩, fun _ => rfl⟩⟩

/-- C17: sequential reads reassemble the content. For an offset `k` with
`0 <= k <= len(content)` and buffer lengths `m1`, `m2` (Go lengths, with
`k + m1 + m2` inside the range of `int`), the read of `m1` bytes at `k` followed by
the read of `m2` bytes at `k` plus the number of bytes got is the read of `m1 + m2`
bytes at `k`; and the reader that starts at offset 0 and reads chunks of a fixed
size `m > 0` until a read is empty returns, given fuel for `len(content) + 1`
reads, exactly the content. -/
theorem Read_sequential_reassembles (vn : ValueNode) :
    (∀ (k : Int) (m1 m2 : Nat), 0 ≤ k → k ≤ (vn.value.Value.Content.length : Int) →
      k + (m1 : Int) + (m2 : Int) < 2 ^ 63 →
      ∃ r1 r2 r12 : List Byte,
        vn.Read m1 k = .ok (r1, OK) ∧
        vn.Read m2 (k + (r1.length : Int)) = .ok (r2, OK) ∧
        vn.Read (m1 + m2) k = .ok (r12, OK) ∧
        r1 ++ r2 = r12) ∧
    (∀ m fuel : Nat, 0 < m → (vn.value.Value.Content.length : Int) + (m : Int) < 2 ^ 63 →
      vn.value.Value.Content.length + 1 ≤ fuel →
      readChunks vn m fuel 0 = some vn.value.Value.Content) := by
  constructor
  · intro k m1 m2 h0 hle hov
    have hnext : (k + (((vn.value.Value.Content.take
        (min (k.toNat + m1) vn.value.Value.Content.length)).drop k.toNat).length : Int)).toNat
        = min (k.toNat + m1) vn.value.Value.Content.length := by
      simp only [List.length_drop, List.length_take]
      omega
    have hb : min (min (k.toNat + m1) vn.value.Value.Content.length + m2)
        vn.value.Value.Content.length
        = min (k.toNat + (m1 + m2)) vn.value.Value.Content.length := by omega
    refine ⟨_, _, _, Read_inside vn m1 k h0 hle (by omega),
      Read_inside vn m2 _ (by omega) (by
        simp only [List.length_drop, List.length_take]
        omega) (by
        simp only [List.length_drop, List.length_take]
        omega),
      Read_inside vn (m1 + m2) k h0 hle (by push_cast; omega), ?_⟩
    rw [hnext, hb]
    exact window_append _ _ _ _ (by omega) (by omega) (Nat.min_le_right _ _)
  · intro m fuel hm hov hf
    have h := readChunks_from vn m hm hov fuel 0 (le_refl _) (by simp) (by simpa using hf)
    simpa using h

/-- Witness of C17: on the password "s3cr3t", 2 bytes at offset 1 and then 10 bytes
at offset 3 are the read of 12 bytes at offset 1, and chunks of 4 bytes read from
offset 0 give the whole password. -/
theorem Read_sequential_reassembles_witness :
    (∃ r1 r2 r12 : List Byte,
      passwordNode.Read 2 1 = .ok (r1, OK) ∧
      passwordNode.Read 10 (1 + (r1.length : Int)) = .ok (r2, OK) ∧
      passwordNode.Read (2 + 10) 1 = .ok (r12, OK) ∧
      r1 ++ r2 = r12) ∧
    readChunks passwordNode 4 7 0 = some (goStr "s3cr3t") :=
  ⟨(Read_sequential_reassembles passwordNode).1 1 2 10 (by decide) (by decide) (by decide),
    (Read_sequential_reassembles passwordNode).2 4 7 (by decide) (by decide) (by decide)⟩

/-- C18: the fallback display name is injective in the identifier. Two entries whose
Title is empty or absent and whose UUIDs differ get different display names, each
exactly 16 bytes long. -/
theorem entryTitle_fallback_injective (e1 e2 : Entry)
    (h1 : e1.GetContent (goStr "Title") = []) (h2 : e2.GetContent (goStr "Title") = [])
    (hne : e1.UUID ≠ e2.UUID) :
    entryTitle e1 ≠ entryTitle e2 ∧
    (entryTitle e1).length = 16 ∧ (entryTitle e2).length = 16 := by
  rw [entryTitle_of_empty e1 h1, entryTitle_of_empty e2 h2]
  exact ⟨fun h => hne (Subtype.ext h), e1.UUID.property, e2.UUID.property⟩

/-- Witness of C18: the entry with the empty title and the entry with no title have
different identifiers and different 16-byte names. -/
theorem entryTitle_fallback_injective_witness :
    untitledEntry.UUID ≠ bareEntry.UUID ∧
    entryTitle untitledEntry ≠ entryTitle bareEntry ∧
    (entryTitle untitledEntry).length = 16 ∧ (entryTitle bareEntry).length = 16 :=
  ⟨by decide, entryTitle_fallback_injective untitledEntry bareEntry (by rfl) (by rfl)
    (by decide)⟩

end KeepassFuse
